import Mathlib

/-!
Verification of the (re)Route Barcelona street-quality scoring core
(`score_streets.py`) against its specification.

The embedding translates the core functions of the source into Lean:
`parse_db_range`, `count_points_near_line` and `score_streets`, together
with the library primitives they call.

Modelling conventions:

* Python floats are modelled as exact rationals (`ℚ`).  The numeric
  literals of the source (`0.5`, `0.3`, `37.5`, `0.001`, ...) are written
  as the corresponding rationals (`1/2`, `3/10`, `75/2`, `1/1000`, ...).
* `scipy.spatial.cKDTree` is modelled semantically: `query_ball_point`
  returns the indices of all indexed points within the given Euclidean
  radius of the probe point, and `query` returns the nearest indexed
  point.  Euclidean distance comparisons `dist ≤ r` and `dist < r` are
  represented exactly over `ℚ` by the equivalent squared comparisons
  `dist² ≤ r²` and `dist² < r²` (distances and radii are nonnegative), so
  `KDTree.query` returns the squared distance together with the index.
  Ties in `query` resolve to the smallest index (the library resolves
  exact ties deterministically by tree structure).
  Constructing a `cKDTree` from an empty point list raises `ValueError`
  in scipy (the empty `numpy` array is 1-dimensional); this is modelled
  by `cKDTree` returning `Except.error`.
* `numpy.ndarray.max` raises `ValueError` on an empty array; `npMax`
  models this with `Except.error`.  `numpy.percentile` with the default
  linear interpolation is modelled by `percentile`.  `numpy.round` uses
  round-half-to-even, modelled exactly by `roundHalfEven` / `round3`.
* The shapely geometric centroid of a line geometry involves square
  roots (edge lengths), which have no exact rational representation, so
  the centroid primitive is passed to `score_streets` as an explicit
  function parameter `centroid : Geometry → Pt`; every theorem below is
  universally quantified over it.
* A GeoDataFrame row of the street network is an `Edge α`: its geometry
  (possibly `none`, mirroring a missing geometry) plus an opaque payload
  `attrs : α` standing for all the other OSM columns.  Adding the four
  score columns produces a `ScoredEdge α`.  Assigning a score array to a
  column matches rows positionally, modelled by `assembleScored`.
* Python's in-place mutation is modelled by explicit value passing: the
  source copies the edge frame (`edges = edges.copy()`) before adding
  columns, and never writes to its other arguments, so `score_streets`
  is a pure function from inputs to a fresh scored collection.
-/

/-- A 2-D point (longitude, latitude), as used in the `[lng, lat]` numpy
point arrays of the source. -/
abbrev Pt : Type := ℚ × ℚ

/-- Squared Euclidean distance between two points.  Used to express the
scipy distance comparisons exactly over `ℚ`. -/
def sqDist (a b : Pt) : ℚ := (a.1 - b.1) ^ 2 + (a.2 - b.2) ^ 2

/-- Model of `scipy.spatial.cKDTree`: the indexed point set.  The spatial
index is a pure query structure over a frozen list of points. -/
structure KDTree where
  pts : List Pt
deriving DecidableEq, Repr

/-- Model of `cKDTree.query_ball_point(c, r)`: the indices of all indexed
points whose Euclidean distance to `c` is at most `r`, expressed by the
equivalent squared comparison. -/
def KDTree.query_ball_point (t : KDTree) (c : Pt) (r : ℚ) : List ℕ :=
  (List.range t.pts.length).filter fun j => decide (sqDist (t.pts.getD j (0, 0)) c ≤ r ^ 2)

/-- Model of `cKDTree.query(c)` (nearest neighbour): returns the squared
distance to, and index of, the nearest indexed point; ties resolve to the
smallest index. -/
def KDTree.query (t : KDTree) (c : Pt) : ℚ × ℕ :=
  (List.range t.pts.length).foldl
    (fun best j =>
      if sqDist (t.pts.getD j (0, 0)) c < best.1 then (sqDist (t.pts.getD j (0, 0)) c, j)
      else best)
    (sqDist (t.pts.getD 0 (0, 0)) c, 0)

/-- Model of `cKDTree(pts)` construction as called (unguarded) on the
noise centroid array: scipy raises `ValueError` when the data array is
not 2-dimensional, which is what `np.array([])` of an empty centroid
list produces. -/
def cKDTree (pts : List Pt) : Except String KDTree :=
  if pts.isEmpty then Except.error "ValueError: data must be 2 dimensions"
  else Except.ok ⟨pts⟩

/-- Model of the guarded construction
`cKDTree(points) if len(points) > 0 else None` used for the three
category point clouds. -/
def cKDTreeOpt (pts : List Pt) : Option KDTree :=
  if 0 < pts.length then some ⟨pts⟩ else none

/-- A shapely line geometry as consumed by the core: a `LineString`
(vertex list) or a `MultiLineString` (list of vertex lists). -/
inductive Geometry : Type
  | lineString (coords : List Pt)
  | multiLineString (lines : List (List Pt))
deriving DecidableEq, Repr

/-- Model of shapely's `is_empty` for the two line geometry kinds. -/
def Geometry.is_empty : Geometry → Bool
  | .lineString cs => cs.isEmpty
  | .multiLineString ls => ls.all (fun l => l.isEmpty)

/-- The combined vertex list of a geometry: `list(line_geom.coords)` for
a `LineString`, the concatenation over the member lines for a
`MultiLineString` (lines 221-226 of the source). -/
def Geometry.coordsList : Geometry → List Pt
  | .lineString cs => cs
  | .multiLineString ls => ls.flatten

/-- Source `count_points_near_line(line_geom, kdtree, points_array,
buffer_deg)` (lines 210-237): accumulate into a set the indices returned
by `query_ball_point` at every vertex of the line, and return the size of
the set.  `points_array` is passed but unused, exactly as in the source. -/
def count_points_near_line (line_geom : Geometry) (kdtree : KDTree) (points_array : List Pt)
    (buffer_deg : ℚ) : ℕ :=
  if line_geom.is_empty then 0
  else if line_geom.coordsList.length = 0 then 0
  else
    (line_geom.coordsList.foldl
      (fun nearby c => nearby ∪ (kdtree.query_ball_point c buffer_deg).toFinset)
      (∅ : Finset ℕ)).card

/-- Model of Python `str.strip()`: drop whitespace from both ends of the
character list.  (Lean's own `String.trim` is defined by well-founded
recursion over byte positions and does not reduce in the kernel, so the
Python string primitives the source uses are modelled structurally over
`List Char`.) -/
def pyStrip (cs : List Char) : List Char :=
  ((cs.dropWhile Char.isWhitespace).reverse.dropWhile Char.isWhitespace).reverse

/-- Model of Python `str.startswith(pre)`. -/
def pyStartsWith (cs pre : List Char) : Bool := pre.isPrefixOf cs

/-- Worker for `pyReplace`; `fuel` (an upper bound on the remaining
length) makes the recursion structural. -/
def pyReplaceAux (pat rep : List Char) : ℕ → List Char → List Char
  | 0, s => s
  | _ + 1, [] => []
  | fuel + 1, c :: rest =>
    if pat.isPrefixOf (c :: rest) then
      rep ++ pyReplaceAux pat rep fuel ((c :: rest).drop pat.length)
    else c :: pyReplaceAux pat rep fuel rest

/-- Model of Python `str.replace(pat, rep)` for a nonempty pattern:
replace every non-overlapping occurrence, scanning left to right. -/
def pyReplace (s pat rep : List Char) : List Char := pyReplaceAux pat rep s.length s

/-- Worker for `pySplit`; `acc` holds the current field reversed. -/
def pySplitAux (sep : List Char) : ℕ → List Char → List Char → List (List Char)
  | 0, acc, rest => [acc.reverse ++ rest]
  | _ + 1, acc, [] => [acc.reverse]
  | fuel + 1, acc, c :: rest =>
    if sep.isPrefixOf (c :: rest) then
      acc.reverse :: pySplitAux sep fuel [] ((c :: rest).drop sep.length)
    else pySplitAux sep fuel (c :: acc) rest

/-- Model of Python `str.split(sep)` for a nonempty separator: split at
every occurrence, keeping empty fields. -/
def pySplit (s sep : List Char) : List (List Char) := pySplitAux sep s.length [] s

/-- Value of a digit string, most significant digit first. -/
def digitsVal (cs : List Char) : ℕ :=
  cs.foldl (fun n c => 10 * n + (c.toNat - 48)) 0

/-- Model of Python `float(s)` restricted to plain decimal literals
(optional sign, integer digits, optional fractional part) — the only
shapes the noise CSV's decibel ranges produce.  Returns `none` (Python:
`ValueError`) on anything else. -/
def pyFloat (cs : List Char) : Option ℚ :=
  let signed : ℚ × List Char :=
    match cs with
    | '-' :: r => (-1, r)
    | '+' :: r => (1, r)
    | _ => (1, cs)
  let sign := signed.1
  let rest := signed.2
  let intPart := rest.takeWhile Char.isDigit
  let rest2 := rest.dropWhile Char.isDigit
  match rest2 with
  | [] =>
    if intPart.isEmpty then none
    else some (sign * (digitsVal intPart : ℚ))
  | '.' :: frac =>
    if frac.all Char.isDigit && !(intPart.isEmpty && frac.isEmpty) then
      some (sign * ((digitsVal intPart : ℚ) + (digitsVal frac : ℚ) / ((10 : ℚ) ^ frac.length)))
    else none
  | _ => none

/-- Source `parse_db_range(db_string)` (lines 77-85): `'70 - 75 dB(A)'`
becomes the midpoint `72.5`; a string starting with `'<'` becomes `37.5`.
Python raises (`IndexError` / `ValueError`) when the split yields fewer
than two parts or a part does not parse as a float; modelled by
`Except.error`. -/
def parse_db_range (db_string : String) : Except String ℚ :=
  if pyStartsWith (pyStrip db_string.data) ['<'] then Except.ok (75 / 2)
  else
    match pySplit (pyStrip (pyReplace (pyStrip db_string.data) "dB(A)".data [])) ['-'] with
    | [] => Except.error "IndexError: list index out of range"
    | [_] => Except.error "IndexError: list index out of range"
    | p0 :: p1 :: _ =>
      match pyFloat (pyStrip p0), pyFloat (pyStrip p1) with
      | some low, some high => Except.ok ((low + high) / 2)
      | _, _ => Except.error "ValueError: could not convert string to float"

/-- Insert a rational into an ascending-sorted list. -/
def insertSorted (x : ℚ) : List ℚ → List ℚ
  | [] => [x]
  | y :: ys => if x ≤ y then x :: y :: ys else y :: insertSorted x ys

/-- Ascending insertion sort, the sorted order `numpy.percentile` works
over. -/
def sortAsc (xs : List ℚ) : List ℚ := xs.foldr insertSorted []

/-- Model of `numpy.percentile(xs, q)` with the default linear
interpolation: virtual index `(q/100)·(n−1)` into the ascending sort,
linearly interpolating between the two neighbouring order statistics.
Only ever called on nonempty `xs` by the source. -/
def percentile (xs : List ℚ) (q : ℚ) : ℚ :=
  let s := sortAsc xs
  let n := s.length
  let pos := (q / 100) * ((n : ℚ) - 1)
  let k : ℕ := (Rat.floor pos).toNat
  let d := pos - (k : ℚ)
  let a := s.getD k 0
  let b := s.getD (k + 1) a
  a + d * (b - a)

/-- Round-half-to-even to the nearest integer, the rounding mode of
`numpy.round`. -/
def roundHalfEven (q : ℚ) : ℤ :=
  if q - (Rat.floor q : ℚ) < 1 / 2 then Rat.floor q
  else if 1 / 2 < q - (Rat.floor q : ℚ) then Rat.floor q + 1
  else if Rat.floor q % 2 = 0 then Rat.floor q else Rat.floor q + 1

/-- Model of `np.round(x, 3)`: round-half-to-even at the third decimal. -/
def round3 (q : ℚ) : ℚ := ((roundHalfEven (q * 1000) : ℤ) : ℚ) / 1000

/-- Model of `numpy_array.max()`: `ValueError` on an empty array. -/
def listMax : List ℚ → ℚ
  | [] => 0
  | x :: rest => rest.foldl max x

/-- Model of `numpy_array.max()` as an operation that raises on an empty
array (`ValueError: zero-size array to reduction operation`). -/
def npMax (xs : List ℚ) : Except String ℚ :=
  if xs.isEmpty then
    Except.error "ValueError: zero-size array to reduction operation maximum which has no identity"
  else Except.ok (listMax xs)

/-- A street-network edge handed to the core: its geometry (possibly
missing) plus an opaque payload `attrs` standing for every other column
of the GeoDataFrame row. -/
structure Edge (α : Type) where
  geometry : Option Geometry
  attrs : α
deriving DecidableEq, Repr

/-- A noise survey row as consumed by `score_streets`: the midpoint
decibel value and the segment geometry.  (The `tram_id` column also
present in the data is never read by `score_streets`.) -/
structure NoiseRow where
  noise_db : ℚ
  geometry : Geometry
deriving DecidableEq, Repr

/-- An output row of `score_streets`: the input edge's geometry and
payload plus the four rounded score columns. -/
structure ScoredEdge (α : Type) where
  geometry : Option Geometry
  attrs : α
  noise_score : ℚ
  green_score : ℚ
  clean_score : ℚ
  cultural_score : ℚ
deriving DecidableEq, Repr

/-- The per-edge raw quantities produced by the scoring loop (lines
275-303): the raw noise score and the three category counts. -/
structure RawRow where
  noise : ℚ
  trees : ℕ
  cleaning : ℕ
  pois : ℕ
deriving DecidableEq, Repr

/-- The loop defaults: noise score `0.5` (line 265) and zero raw counts
(lines 271-273); an edge with missing or empty geometry keeps exactly
these (the `continue` at line 281). -/
def defaultRaw : RawRow := ⟨1 / 2, 0, 0, 0⟩

/-- `BUFFER_METERS = 25` (line 45). -/
def BUFFER_METERS : ℚ := 25

/-- `buffer_deg = BUFFER_METERS / 111000.0` (line 248). -/
def buffer_deg : ℚ := BUFFER_METERS / 111000

/-- One iteration of the scoring loop (lines 275-303) for a single edge
geometry: skip missing/empty geometries, otherwise match the nearest
noise centroid (adopting its decibel value when the distance is below
`0.001` degrees, i.e. squared distance below `0.001²`) and count the
nearby points of each category whose index exists. -/
def scoreEdgeRaw (centroid : Geometry → Pt) (noise_kdtree : KDTree) (noise_values : List ℚ)
    (tree_kdtree cleaning_kdtree poi_kdtree : Option KDTree)
    (tree_points cleaning_points poi_points : List Pt)
    (g : Option Geometry) : RawRow :=
  match g with
  | none => defaultRaw
  | some geom =>
    if geom.is_empty then defaultRaw
    else
      { noise :=
          if (noise_kdtree.query (centroid geom)).1 < (1 / 1000 : ℚ) ^ 2 then
            max 0 (min 1
              (1 - (noise_values.getD (noise_kdtree.query (centroid geom)).2 0 - 75 / 2) / 40))
          else 1 / 2,
        trees :=
          match tree_kdtree with
          | some k => count_points_near_line geom k tree_points buffer_deg
          | none => 0,
        cleaning :=
          match cleaning_kdtree with
          | some k => count_points_near_line geom k cleaning_points buffer_deg
          | none => 0,
        pois :=
          match poi_kdtree with
          | some k => count_points_near_line geom k poi_points buffer_deg
          | none => 0 }

/-- The whole scoring loop: one `RawRow` per edge, in order. -/
def scoreRaws {α : Type} (centroid : Geometry → Pt) (noise_kdtree : KDTree)
    (noise_values : List ℚ) (tree_kdtree cleaning_kdtree poi_kdtree : Option KDTree)
    (tree_points cleaning_points poi_points : List Pt) (edges : List (Edge α)) : List RawRow :=
  edges.map fun e =>
    scoreEdgeRaw centroid noise_kdtree noise_values tree_kdtree cleaning_kdtree poi_kdtree
      tree_points cleaning_points poi_points e.geometry

/-- The percentile cap of the green/cultural normalization:
`max(np.percentile(counts[counts > 0], 90), 1)` (lines 310 and 320). -/
def capOf (counts : List ℕ) : ℚ :=
  max (percentile ((counts.map fun (c : ℕ) => (c : ℚ)).filter fun x => decide (0 < x)) 90) 1

/-- The green-score normalization (lines 308-311), also used verbatim for
the cultural score over POI counts (lines 318-321): if
`counts.max() > 0`, divide by the percentile cap and clamp at 1,
otherwise leave the zero-initialised score array; `counts.max()` raises
on an empty array. -/
def percentileCapNormalize (counts : List ℕ) : Except String (List ℚ) :=
  match npMax (counts.map fun (c : ℕ) => (c : ℚ)) with
  | Except.error e => Except.error e
  | Except.ok m =>
    if 0 < m then
      Except.ok (counts.map fun (c : ℕ) => min ((c : ℚ) / capOf counts) 1)
    else
      Except.ok (counts.map fun _ => (0 : ℚ))

/-- The branch-free value of `percentileCapNormalize` on a nonempty count
list, with the `counts.max() > 0` test expressed as the existence of a
positive count. -/
def pcnValues (counts : List ℕ) : List ℚ :=
  if ∃ c ∈ counts, 0 < c then counts.map fun (c : ℕ) => min ((c : ℚ) / capOf counts) 1
  else counts.map fun _ => (0 : ℚ)

/-- The clean-score transform of a single cleaning-spot count:
`np.where(count == 0, 1.0, np.maximum(0.0, 1.0 - count * 0.3))`
(lines 315-316), pointwise. -/
def cleanFormula (c : ℕ) : ℚ := if c = 0 then 1 else max 0 (1 - (c : ℚ) * (3 / 10))

/-- The clean-score normalization (lines 315-316): `cleanFormula`
applied elementwise. -/
def cleanNormalize (cleaning_counts : List ℕ) : List ℚ := cleaning_counts.map cleanFormula

/-- Positional assignment of the four rounded score arrays as columns of
the copied edge frame (lines 324-328): row `i` of the output carries the
input edge `i`'s geometry and payload plus `np.round(scores[i], 3)` for
each of the four score arrays. -/
def assembleScored {α : Type} :
    List (Edge α) → List ℚ → List ℚ → List ℚ → List ℚ → List (ScoredEdge α)
  | [], _, _, _, _ => []
  | e :: es, ns, gs, cs, us =>
    { geometry := e.geometry, attrs := e.attrs,
      noise_score := round3 (ns.getD 0 0), green_score := round3 (gs.getD 0 0),
      clean_score := round3 (cs.getD 0 0), cultural_score := round3 (us.getD 0 0) } ::
    assembleScored es ns.tail gs.tail cs.tail us.tail

/-- Source `score_streets(edges, noise_gdf, tree_points, cleaning_points,
poi_points)` (lines 240-336): build the guarded point-cloud indices and
the unguarded noise-centroid index, run the scoring loop, normalize the
green, clean and cultural scores globally, round everything to three
decimals and return the copied, annotated edge collection.  The two
failure points of the source are modelled as `Except.error`: the
`cKDTree` construction over an empty noise-centroid array and the
`.max()` reductions over empty count arrays (empty edge list). -/
def score_streets {α : Type} (centroid : Geometry → Pt) (edges : List (Edge α))
    (noise_gdf : List NoiseRow) (tree_points cleaning_points poi_points : List Pt) :
    Except String (List (ScoredEdge α)) :=
  let tree_kdtree := cKDTreeOpt tree_points
  let cleaning_kdtree := cKDTreeOpt cleaning_points
  let poi_kdtree := cKDTreeOpt poi_points
  match cKDTree (noise_gdf.map fun r => centroid r.geometry) with
  | Except.error e => Except.error e
  | Except.ok noise_kdtree =>
    let noise_values := noise_gdf.map NoiseRow.noise_db
    let raws := scoreRaws centroid noise_kdtree noise_values tree_kdtree cleaning_kdtree
      poi_kdtree tree_points cleaning_points poi_points edges
    match percentileCapNormalize (raws.map RawRow.trees) with
    | Except.error e => Except.error e
    | Except.ok green_scores =>
      let clean_scores := cleanNormalize (raws.map RawRow.cleaning)
      match percentileCapNormalize (raws.map RawRow.pois) with
      | Except.error e => Except.error e
      | Except.ok cultural_scores =>
        Except.ok (assembleScored edges (raws.map RawRow.noise) green_scores clean_scores
          cultural_scores)

/-- The raw-row list of a full `score_streets` run, naming the noise
index and value arrays it builds internally (for stating per-edge
facts about the run). -/
def runRaws {α : Type} (centroid : Geometry → Pt) (edges : List (Edge α))
    (noise_gdf : List NoiseRow) (tree_points cleaning_points poi_points : List Pt) :
    List RawRow :=
  scoreRaws centroid ⟨noise_gdf.map fun r => centroid r.geometry⟩
    (noise_gdf.map NoiseRow.noise_db) (cKDTreeOpt tree_points) (cKDTreeOpt cleaning_points)
    (cKDTreeOpt poi_points) tree_points cleaning_points poi_points edges

/-- The successful result of `score_streets` in closed form, proved equal
to the run whenever the noise collection and the edge list are nonempty
(`score_streets_eq_ok`). -/
def scoredOutput {α : Type} (centroid : Geometry → Pt) (edges : List (Edge α))
    (noise_gdf : List NoiseRow) (tree_points cleaning_points poi_points : List Pt) :
    List (ScoredEdge α) :=
  assembleScored edges
    ((runRaws centroid edges noise_gdf tree_points cleaning_points poi_points).map RawRow.noise)
    (pcnValues
      ((runRaws centroid edges noise_gdf tree_points cleaning_points poi_points).map
        RawRow.trees))
    (cleanNormalize
      ((runRaws centroid edges noise_gdf tree_points cleaning_points poi_points).map
        RawRow.cleaning))
    (pcnValues
      ((runRaws centroid edges noise_gdf tree_points cleaning_points poi_points).map
        RawRow.pois))

/-! ## Basic list lemmas used throughout -/

/-- `getD` on a tail shifts the index. -/
theorem getD_tail {β : Type} (l : List β) (i : ℕ) (d : β) :
    l.tail.getD i d = l.getD (i + 1) d := by
  cases l <;> rfl

/-- A `getD` value is either a member of the list or the default. -/
theorem getD_mem_or_eq {β : Type} (l : List β) (i : ℕ) (d : β) :
    l.getD i d ∈ l ∨ l.getD i d = d := by
  induction l generalizing i with
  | nil => right; rfl
  | cons x xs ih =>
    cases i with
    | zero => left; simp
    | succ j =>
      rcases ih j with h | h
      · left
        rw [List.getD_cons_succ]
        exact List.mem_cons_of_mem x h
      · right
        rw [List.getD_cons_succ]
        exact h

/-- `getD` through a `map`, at an in-bounds index. -/
theorem getD_map_of_lt {β γ : Type} (f : β → γ) (l : List β) (i : ℕ) (d : γ) (d0 : β)
    (h : i < l.length) : (l.map f).getD i d = f (l.getD i d0) := by
  induction l generalizing i with
  | nil => simp at h
  | cons x xs ih =>
    cases i with
    | zero => rfl
    | succ j =>
      simp only [List.map_cons, List.getD_cons_succ]
      exact ih j (by simpa using h)

/-- In-bounds `getD` does not depend on the default. -/
theorem getD_eq_getD_of_lt {β : Type} (l : List β) (i : ℕ) (d d' : β) (h : i < l.length) :
    l.getD i d = l.getD i d' := by
  induction l generalizing i with
  | nil => simp at h
  | cons x xs ih =>
    cases i with
    | zero => rfl
    | succ j =>
      simp only [List.getD_cons_succ]
      exact ih j (by simpa using h)

/-! ## Maximum of a list (`numpy .max()`) -/

theorem init_le_foldl_max (l : List ℚ) (a : ℚ) : a ≤ l.foldl max a := by
  induction l generalizing a with
  | nil => simp
  | cons y ys ih => exact le_trans (le_max_left a y) (ih (max a y))

theorem le_foldl_max (l : List ℚ) (a x : ℚ) (hx : x ∈ l) : x ≤ l.foldl max a := by
  induction l generalizing a with
  | nil => simp at hx
  | cons y ys ih =>
    rcases List.mem_cons.1 hx with rfl | hx
    · exact le_trans (le_max_right a x) (init_le_foldl_max ys (max a x))
    · exact ih (max a y) hx

theorem foldl_max_le (l : List ℚ) (a b : ℚ) (ha : a ≤ b) (h : ∀ x ∈ l, x ≤ b) :
    l.foldl max a ≤ b := by
  induction l generalizing a with
  | nil => simpa using ha
  | cons y ys ih =>
    exact ih (max a y) (max_le ha (h y (List.mem_cons_self y ys)))
      fun x hx => h x (List.mem_cons_of_mem y hx)

theorem le_listMax (l : List ℚ) (x : ℚ) (hx : x ∈ l) : x ≤ listMax l := by
  cases l with
  | nil => simp at hx
  | cons y ys =>
    rcases List.mem_cons.1 hx with rfl | hx
    · exact init_le_foldl_max ys x
    · exact le_foldl_max ys y x hx

theorem listMax_le (l : List ℚ) (b : ℚ) (hne : l ≠ []) (h : ∀ x ∈ l, x ≤ b) :
    listMax l ≤ b := by
  cases l with
  | nil => exact absurd rfl hne
  | cons y ys =>
    exact foldl_max_le ys y b (h y (List.mem_cons_self y ys))
      fun x hx => h x (List.mem_cons_of_mem y hx)

theorem npMax_ok (l : List ℚ) (h : l ≠ []) : npMax l = Except.ok (listMax l) := by
  unfold npMax
  rw [if_neg (by simpa [List.isEmpty_iff] using h)]

/-- The `counts.max() > 0` test of the source is the existence of a
positive count. -/
theorem listMax_counts_pos (counts : List ℕ) (h : counts ≠ []) :
    (0 < listMax (counts.map fun (c : ℕ) => (c : ℚ))) ↔ ∃ c ∈ counts, 0 < c := by
  constructor
  · intro hpos
    by_contra hall
    push_neg at hall
    have hz : ∀ x ∈ counts.map fun (c : ℕ) => (c : ℚ), x ≤ 0 := by
      intro x hx
      rcases List.mem_map.1 hx with ⟨c, hc, rfl⟩
      have : c = 0 := Nat.le_zero.1 (hall c hc)
      simp [this]
    have := listMax_le _ 0 (by simpa using h) hz
    linarith
  · rintro ⟨c, hc, hcpos⟩
    have hmem : (c : ℚ) ∈ counts.map fun (c : ℕ) => (c : ℚ) := List.mem_map.2 ⟨c, hc, rfl⟩
    have := le_listMax _ _ hmem
    have hc' : (0 : ℚ) < (c : ℚ) := by exact_mod_cast hcpos
    linarith

/-! ## The percentile-cap normalization -/

theorem capOf_ge_one (counts : List ℕ) : 1 ≤ capOf counts := le_max_right _ _

theorem capOf_pos (counts : List ℕ) : 0 < capOf counts :=
  lt_of_lt_of_le zero_lt_one (capOf_ge_one counts)

/-- On a nonempty count list, the source normalization computes
`pcnValues`. -/
theorem pcn_eq_ok (counts : List ℕ) (h : counts ≠ []) :
    percentileCapNormalize counts = Except.ok (pcnValues counts) := by
  unfold percentileCapNormalize pcnValues
  rw [npMax_ok _ (by simpa using h)]
  show (if 0 < listMax (counts.map fun (c : ℕ) => (c : ℚ)) then
      Except.ok (counts.map fun (c : ℕ) => min ((c : ℚ) / capOf counts) 1)
    else Except.ok (counts.map fun _ => (0 : ℚ))) = _
  by_cases hex : ∃ c ∈ counts, 0 < c
  · rw [if_pos ((listMax_counts_pos counts h).2 hex), if_pos hex]
  · rw [if_neg (fun hc => hex ((listMax_counts_pos counts h).1 hc)), if_neg hex]

theorem pcnValues_length (counts : List ℕ) : (pcnValues counts).length = counts.length := by
  unfold pcnValues
  split <;> simp

theorem pcnValues_getD (counts : List ℕ) (i : ℕ) (h : i < counts.length) :
    (pcnValues counts).getD i 0 =
      if ∃ c ∈ counts, 0 < c then min ((counts.getD i 0 : ℚ) / capOf counts) 1 else 0 := by
  unfold pcnValues
  split
  · exact getD_map_of_lt _ counts i 0 0 h
  · exact getD_map_of_lt _ counts i 0 0 h

theorem pcnValues_mem_bounds (counts : List ℕ) :
    ∀ x ∈ pcnValues counts, 0 ≤ x ∧ x ≤ 1 := by
  intro x hx
  unfold pcnValues at hx
  split at hx
  · rcases List.mem_map.1 hx with ⟨c, _, rfl⟩
    refine ⟨le_min (div_nonneg (Nat.cast_nonneg c) (le_of_lt (capOf_pos counts)))
      zero_le_one, ?_⟩
    exact min_le_right _ _
  · rcases List.mem_map.1 hx with ⟨c, _, rfl⟩
    exact ⟨le_refl 0, zero_le_one⟩

/-! ## The clean-score normalization -/

theorem cleanFormula_bounds (c : ℕ) : 0 ≤ cleanFormula c ∧ cleanFormula c ≤ 1 := by
  unfold cleanFormula
  split
  · exact ⟨zero_le_one, le_refl 1⟩
  · constructor
    · exact le_max_left 0 _
    · refine max_le zero_le_one ?_
      have : (0 : ℚ) ≤ (c : ℚ) * (3 / 10) := by positivity
      linarith

theorem cleanNormalize_length (counts : List ℕ) :
    (cleanNormalize counts).length = counts.length := by
  simp [cleanNormalize]

theorem cleanNormalize_getD (counts : List ℕ) (i : ℕ) (h : i < counts.length) :
    (cleanNormalize counts).getD i 0 = cleanFormula (counts.getD i 0) :=
  getD_map_of_lt _ counts i 0 0 h

theorem cleanNormalize_mem_bounds (counts : List ℕ) :
    ∀ x ∈ cleanNormalize counts, 0 ≤ x ∧ x ≤ 1 := by
  intro x hx
  rcases List.mem_map.1 hx with ⟨c, _, rfl⟩
  exact cleanFormula_bounds c

/-! ## Rounding -/

theorem rat_floor_eq_intFloor (q : ℚ) : Rat.floor q = ⌊q⌋ := rfl

theorem le_roundHalfEven (q : ℚ) (A : ℤ) (h : (A : ℚ) ≤ q) : A ≤ roundHalfEven q := by
  have hA : A ≤ Rat.floor q := by
    rw [rat_floor_eq_intFloor]
    exact Int.le_floor.2 h
  unfold roundHalfEven
  split_ifs <;> omega

theorem floor_le_roundHalfEven (q : ℚ) : Rat.floor q ≤ roundHalfEven q := by
  unfold roundHalfEven
  split_ifs <;> omega

theorem roundHalfEven_le_floor_succ (q : ℚ) : roundHalfEven q ≤ Rat.floor q + 1 := by
  unfold roundHalfEven
  split_ifs <;> omega

theorem roundHalfEven_le (q : ℚ) (B : ℤ) (h : q ≤ (B : ℚ)) : roundHalfEven q ≤ B := by
  have hfl : (Rat.floor q : ℚ) ≤ q := by
    rw [rat_floor_eq_intFloor]
    exact Int.floor_le q
  have hB : Rat.floor q ≤ B := by
    rw [rat_floor_eq_intFloor]
    calc ⌊q⌋ ≤ ⌊(B : ℚ)⌋ := Int.floor_le_floor h
      _ = B := Int.floor_intCast B
  rcases lt_or_eq_of_le hB with hlt | heq
  · exact le_trans (roundHalfEven_le_floor_succ q) (by omega)
  · have hq : q = (B : ℚ) := le_antisymm h (by rw [← heq]; exact hfl)
    subst hq
    unfold roundHalfEven
    rw [if_pos]
    · exact hB
    · rw [rat_floor_eq_intFloor, Int.floor_intCast]
      norm_num

theorem round3_bounds (q : ℚ) (h0 : 0 ≤ q) (h1 : q ≤ 1) : 0 ≤ round3 q ∧ round3 q ≤ 1 := by
  unfold round3
  have hlow : (0 : ℤ) ≤ roundHalfEven (q * 1000) :=
    le_roundHalfEven _ 0 (by push_cast; linarith)
  have hhigh : roundHalfEven (q * 1000) ≤ 1000 :=
    roundHalfEven_le _ 1000 (by push_cast; linarith)
  constructor
  · positivity
  · rw [div_le_one (by norm_num)]
    exact_mod_cast hhigh

/-! ## Raw noise score bounds -/

theorem scoreEdgeRaw_noise_bounds (centroid : Geometry → Pt) (nk : KDTree) (nv : List ℚ)
    (tk ck pk : Option KDTree) (tp cp pp : List Pt) (g : Option Geometry) :
    0 ≤ (scoreEdgeRaw centroid nk nv tk ck pk tp cp pp g).noise ∧
      (scoreEdgeRaw centroid nk nv tk ck pk tp cp pp g).noise ≤ 1 := by
  cases g with
  | none =>
    constructor <;> norm_num [scoreEdgeRaw, defaultRaw]
  | some geom =>
    simp only [scoreEdgeRaw]
    by_cases hemp : geom.is_empty = true
    · rw [if_pos hemp]
      constructor <;> norm_num [defaultRaw]
    · rw [if_neg hemp]
      simp only
      split_ifs with hmatch
      · constructor
        · exact le_max_left 0 _
        · exact max_le zero_le_one (min_le_left 1 _)
      · norm_num

/-! ## Geometry and the proximity count -/

/-- A geometry is empty exactly when its combined vertex list is empty. -/
theorem Geometry.is_empty_iff (g : Geometry) : g.is_empty = true ↔ g.coordsList = [] := by
  cases g with
  | lineString cs => cases cs <;> simp [Geometry.is_empty, Geometry.coordsList]
  | multiLineString ls =>
    induction ls with
    | nil => simp [Geometry.is_empty, Geometry.coordsList]
    | cons l rest ih =>
      cases l <;> simp_all [Geometry.is_empty, Geometry.coordsList]

theorem mem_foldl_union (f : Pt → Finset ℕ) (coords : List Pt) (acc : Finset ℕ) (j : ℕ) :
    (j ∈ coords.foldl (fun a c => a ∪ f c) acc) ↔ j ∈ acc ∨ ∃ c ∈ coords, j ∈ f c := by
  induction coords generalizing acc with
  | nil => simp
  | cons x xs ih =>
    rw [List.foldl_cons, ih]
    simp only [Finset.mem_union, List.mem_cons]
    constructor
    · rintro (⟨hj | hj⟩ | ⟨c, hc, hj⟩)
      · exact Or.inl hj
      · exact Or.inr ⟨x, Or.inl rfl, hj⟩
      · exact Or.inr ⟨c, Or.inr hc, hj⟩
    · rintro (hj | ⟨c, rfl | hc, hj⟩)
      · exact Or.inl (Or.inl hj)
      · exact Or.inl (Or.inr hj)
      · exact Or.inr ⟨c, hc, hj⟩

theorem mem_query_ball_point (t : KDTree) (c : Pt) (r : ℚ) (j : ℕ) :
    j ∈ (t.query_ball_point c r).toFinset ↔
      j < t.pts.length ∧ sqDist (t.pts.getD j (0, 0)) c ≤ r ^ 2 := by
  simp [KDTree.query_ball_point, List.mem_filter, List.mem_range]

/-- The proximity count is the number of distinct indexed points within
the buffer radius of at least one vertex of the segment. -/
theorem count_points_card (g : Geometry) (t : KDTree) (pa : List Pt) (b : ℚ) :
    count_points_near_line g t pa b =
      ((Finset.range t.pts.length).filter
        (fun j => ∃ c ∈ g.coordsList, sqDist (t.pts.getD j (0, 0)) c ≤ b ^ 2)).card := by
  unfold count_points_near_line
  by_cases hemp : g.is_empty = true
  · rw [if_pos hemp]
    have hc : g.coordsList = [] := (Geometry.is_empty_iff g).1 hemp
    rw [hc]
    simp
  · rw [if_neg hemp]
    have hne : ¬ g.coordsList.length = 0 := by
      intro h0
      exact hemp ((Geometry.is_empty_iff g).2 (List.length_eq_zero.1 h0))
    rw [if_neg hne]
    congr 1
    ext j
    rw [mem_foldl_union]
    simp only [Finset.not_mem_empty, false_or, Finset.mem_filter, Finset.mem_range]
    constructor
    · rintro ⟨c, hc, hj⟩
      rcases (mem_query_ball_point t c b j).1 hj with ⟨hlt, hd⟩
      exact ⟨hlt, c, hc, hd⟩
    · rintro ⟨hlt, c, hc, hd⟩
      exact ⟨c, hc, (mem_query_ball_point t c b j).2 ⟨hlt, hd⟩⟩

/-! ## Positional structure of the assembled output -/

theorem assembleScored_length {α : Type} (es : List (Edge α)) (ns gs cs us : List ℚ) :
    (assembleScored es ns gs cs us).length = es.length := by
  induction es generalizing ns gs cs us with
  | nil => rfl
  | cons e es ih => simp [assembleScored, ih]

theorem assembleScored_getD {α : Type} (es : List (Edge α)) (ns gs cs us : List ℚ) (i : ℕ)
    (h : i < es.length) (d : ScoredEdge α) (dE : Edge α) :
    (assembleScored es ns gs cs us).getD i d =
      { geometry := (es.getD i dE).geometry, attrs := (es.getD i dE).attrs,
        noise_score := round3 (ns.getD i 0), green_score := round3 (gs.getD i 0),
        clean_score := round3 (cs.getD i 0), cultural_score := round3 (us.getD i 0) } := by
  induction es generalizing i ns gs cs us with
  | nil => simp at h
  | cons e es ih =>
    cases i with
    | zero => rfl
    | succ j =>
      have hstep : (assembleScored (e :: es) ns gs cs us).getD (j + 1) d =
          (assembleScored es ns.tail gs.tail cs.tail us.tail).getD j d := rfl
      rw [hstep, ih ns.tail gs.tail cs.tail us.tail j (by simpa using h),
        getD_tail, getD_tail, getD_tail, getD_tail, List.getD_cons_succ]

theorem assembleScored_bounds {α : Type} (es : List (Edge α)) (ns gs cs us : List ℚ)
    (hn : ∀ x ∈ ns, 0 ≤ x ∧ x ≤ 1) (hg : ∀ x ∈ gs, 0 ≤ x ∧ x ≤ 1)
    (hc : ∀ x ∈ cs, 0 ≤ x ∧ x ≤ 1) (hu : ∀ x ∈ us, 0 ≤ x ∧ x ≤ 1) :
    ∀ s ∈ assembleScored es ns gs cs us,
      (0 ≤ s.noise_score ∧ s.noise_score ≤ 1) ∧ (0 ≤ s.green_score ∧ s.green_score ≤ 1) ∧
      (0 ≤ s.clean_score ∧ s.clean_score ≤ 1) ∧
      (0 ≤ s.cultural_score ∧ s.cultural_score ≤ 1) := by
  induction es generalizing ns gs cs us with
  | nil =>
    intro s hs
    simp [assembleScored] at hs
  | cons e es ih =>
    intro s hs
    have bb : ∀ (l : List ℚ), (∀ x ∈ l, 0 ≤ x ∧ x ≤ 1) →
        0 ≤ round3 (l.getD 0 0) ∧ round3 (l.getD 0 0) ≤ 1 := by
      intro l hl
      rcases getD_mem_or_eq l 0 0 with hm | he
      · exact round3_bounds _ (hl _ hm).1 (hl _ hm).2
      · rw [he]
        exact round3_bounds 0 le_rfl zero_le_one
    rcases List.mem_cons.1 hs with rfl | hs
    · exact ⟨bb ns hn, bb gs hg, bb cs hc, bb us hu⟩
    · exact ih ns.tail gs.tail cs.tail us.tail
        (fun x hx => hn x (List.mem_of_mem_tail hx))
        (fun x hx => hg x (List.mem_of_mem_tail hx))
        (fun x hx => hc x (List.mem_of_mem_tail hx))
        (fun x hx => hu x (List.mem_of_mem_tail hx)) s hs

/-! ## Characterizing a `score_streets` run -/

theorem cKDTree_ok (pts : List Pt) (h : pts ≠ []) : cKDTree pts = Except.ok ⟨pts⟩ := by
  cases pts with
  | nil => exact absurd rfl h
  | cons p ps => rfl

theorem runRaws_length {α : Type} (centroid : Geometry → Pt) (edges : List (Edge α))
    (n : List NoiseRow) (tp cp pp : List Pt) :
    (runRaws centroid edges n tp cp pp).length = edges.length := by
  simp [runRaws, scoreRaws]

theorem runRaws_getD {α : Type} (centroid : Geometry → Pt) (edges : List (Edge α))
    (n : List NoiseRow) (tp cp pp : List Pt) (i : ℕ) (dE : Edge α) (h : i < edges.length) :
    (runRaws centroid edges n tp cp pp).getD i defaultRaw =
      scoreEdgeRaw centroid ⟨n.map fun r => centroid r.geometry⟩ (n.map NoiseRow.noise_db)
        (cKDTreeOpt tp) (cKDTreeOpt cp) (cKDTreeOpt pp) tp cp pp
        (edges.getD i dE).geometry := by
  unfold runRaws scoreRaws
  rw [getD_map_of_lt _ edges i defaultRaw dE h]

/-- On a nonempty noise collection and a nonempty edge list, the run
succeeds and produces exactly `scoredOutput`. -/
theorem score_streets_eq_ok {α : Type} (centroid : Geometry → Pt) (edges : List (Edge α))
    (noise_gdf : List NoiseRow) (tp cp pp : List Pt) (hn : noise_gdf ≠ []) (he : edges ≠ []) :
    score_streets centroid edges noise_gdf tp cp pp =
      Except.ok (scoredOutput centroid edges noise_gdf tp cp pp) := by
  have h1 : cKDTree (noise_gdf.map fun r => centroid r.geometry) =
      Except.ok ⟨noise_gdf.map fun r => centroid r.geometry⟩ :=
    cKDTree_ok _ (by simpa using hn)
  have hm1 : (scoreRaws centroid (⟨noise_gdf.map fun r => centroid r.geometry⟩ : KDTree)
      (noise_gdf.map NoiseRow.noise_db) (cKDTreeOpt tp) (cKDTreeOpt cp) (cKDTreeOpt pp)
      tp cp pp edges).map RawRow.trees ≠ [] := by
    unfold scoreRaws
    simpa using he
  have hm2 : (scoreRaws centroid (⟨noise_gdf.map fun r => centroid r.geometry⟩ : KDTree)
      (noise_gdf.map NoiseRow.noise_db) (cKDTreeOpt tp) (cKDTreeOpt cp) (cKDTreeOpt pp)
      tp cp pp edges).map RawRow.pois ≠ [] := by
    unfold scoreRaws
    simpa using he
  simp only [score_streets, scoredOutput, runRaws, h1, pcn_eq_ok _ hm1, pcn_eq_ok _ hm2]

theorem score_streets_noise_nil {α : Type} (centroid : Geometry → Pt) (edges : List (Edge α))
    (tp cp pp : List Pt) :
    score_streets centroid edges [] tp cp pp =
      Except.error "ValueError: data must be 2 dimensions" := rfl

theorem score_streets_edges_nil {α : Type} (centroid : Geometry → Pt) (n : List NoiseRow)
    (tp cp pp : List Pt) (hn : n ≠ []) :
    score_streets centroid ([] : List (Edge α)) n tp cp pp =
      Except.error
        "ValueError: zero-size array to reduction operation maximum which has no identity" := by
  have h1 : cKDTree (n.map fun r => centroid r.geometry) =
      Except.ok ⟨n.map fun r => centroid r.geometry⟩ :=
    cKDTree_ok _ (by simpa using hn)
  simp only [score_streets, h1, scoreRaws, List.map_nil]
  rfl

/-- Inversion: a successful run forces nonempty noise and edge inputs and
pins the output to `scoredOutput`. -/
theorem score_streets_ok_inv {α : Type} {centroid : Geometry → Pt} {edges : List (Edge α)}
    {n : List NoiseRow} {tp cp pp : List Pt} {out : List (ScoredEdge α)}
    (h : score_streets centroid edges n tp cp pp = Except.ok out) :
    n ≠ [] ∧ edges ≠ [] ∧ out = scoredOutput centroid edges n tp cp pp := by
  by_cases hn : n = []
  · subst hn
    rw [score_streets_noise_nil] at h
    exact absurd h (by simp)
  by_cases he : edges = []
  · subst he
    rw [score_streets_edges_nil _ _ _ _ _ hn] at h
    exact absurd h (by simp)
  · refine ⟨hn, he, ?_⟩
    rw [score_streets_eq_ok _ _ _ _ _ _ hn he] at h
    exact (Except.ok.inj h).symm

theorem scoredOutput_length {α : Type} (centroid : Geometry → Pt) (edges : List (Edge α))
    (n : List NoiseRow) (tp cp pp : List Pt) :
    (scoredOutput centroid edges n tp cp pp).length = edges.length := by
  unfold scoredOutput
  rw [assembleScored_length]

theorem scoredOutput_getD {α : Type} (centroid : Geometry → Pt) (edges : List (Edge α))
    (n : List NoiseRow) (tp cp pp : List Pt) (i : ℕ) (d : ScoredEdge α) (dE : Edge α)
    (h : i < edges.length) :
    (scoredOutput centroid edges n tp cp pp).getD i d =
      { geometry := (edges.getD i dE).geometry, attrs := (edges.getD i dE).attrs,
        noise_score := round3 (((runRaws centroid edges n tp cp pp).getD i defaultRaw).noise),
        green_score := round3
          ((pcnValues ((runRaws centroid edges n tp cp pp).map RawRow.trees)).getD i 0),
        clean_score := round3
          (cleanFormula (((runRaws centroid edges n tp cp pp).getD i defaultRaw).cleaning)),
        cultural_score := round3
          ((pcnValues ((runRaws centroid edges n tp cp pp).map RawRow.pois)).getD i 0) } := by
  have hlen : i < (runRaws centroid edges n tp cp pp).length := by
    rw [runRaws_length]
    exact h
  have hclen : i < ((runRaws centroid edges n tp cp pp).map RawRow.cleaning).length := by
    simpa using hlen
  unfold scoredOutput
  rw [assembleScored_getD edges _ _ _ _ i h d dE,
    getD_map_of_lt RawRow.noise _ i 0 defaultRaw hlen,
    cleanNormalize_getD _ i hclen,
    getD_map_of_lt RawRow.cleaning _ i 0 defaultRaw hlen]

/-- A nonempty geometry's raw noise score is the clamp formula when the
nearest noise centroid is within the match threshold, and the `0.5`
default otherwise. -/
theorem scoreEdgeRaw_noise_eq (centroid : Geometry → Pt) (nk : KDTree) (nv : List ℚ)
    (tk ck pk : Option KDTree) (tp cp pp : List Pt) (g : Geometry)
    (hne : g.is_empty = false) :
    (scoreEdgeRaw centroid nk nv tk ck pk tp cp pp (some g)).noise =
      if (nk.query (centroid g)).1 < (1 / 1000 : ℚ) ^ 2 then
        max 0 (min 1 (1 - (nv.getD (nk.query (centroid g)).2 0 - 75 / 2) / 40))
      else 1 / 2 := by
  simp [scoreEdgeRaw, hne]

/-- A missing or empty geometry produces exactly the loop defaults. -/
theorem scoreEdgeRaw_default (centroid : Geometry → Pt) (nk : KDTree) (nv : List ℚ)
    (tk ck pk : Option KDTree) (tp cp pp : List Pt) (g : Option Geometry)
    (hg : g = none ∨ ∃ geo, g = some geo ∧ geo.is_empty = true) :
    scoreEdgeRaw centroid nk nv tk ck pk tp cp pp g = defaultRaw := by
  rcases hg with rfl | ⟨geo, rfl, hemp⟩
  · rfl
  · simp [scoreEdgeRaw, hemp]

/-- The six projections of an output row of a run, in terms of the raw
rows and normalizations. -/
theorem scoredOutput_proj {α : Type} (centroid : Geometry → Pt) (edges : List (Edge α))
    (n : List NoiseRow) (tp cp pp : List Pt) (i : ℕ) (d : ScoredEdge α) (dE : Edge α)
    (h : i < edges.length) :
    ((scoredOutput centroid edges n tp cp pp).getD i d).noise_score =
      round3 (((runRaws centroid edges n tp cp pp).getD i defaultRaw).noise) ∧
    ((scoredOutput centroid edges n tp cp pp).getD i d).green_score =
      round3 ((pcnValues ((runRaws centroid edges n tp cp pp).map RawRow.trees)).getD i 0) ∧
    ((scoredOutput centroid edges n tp cp pp).getD i d).clean_score =
      round3 (cleanFormula (((runRaws centroid edges n tp cp pp).getD i defaultRaw).cleaning)) ∧
    ((scoredOutput centroid edges n tp cp pp).getD i d).cultural_score =
      round3 ((pcnValues ((runRaws centroid edges n tp cp pp).map RawRow.pois)).getD i 0) ∧
    ((scoredOutput centroid edges n tp cp pp).getD i d).geometry =
      (edges.getD i dE).geometry ∧
    ((scoredOutput centroid edges n tp cp pp).getD i d).attrs = (edges.getD i dE).attrs := by
  rw [scoredOutput_getD centroid edges n tp cp pp i d dE h]
  exact ⟨rfl, rfl, rfl, rfl, rfl, rfl⟩

/-! ## Concrete fixtures used by the witness theorems -/

/-- Concrete centroid primitive for witnesses: the first vertex. -/
def exCentroid : Geometry → Pt := fun g => g.coordsList.headD (0, 0)

/-- A one-row noise survey at 57.5 dB whose centroid is the origin. -/
def exNoise : List NoiseRow := [⟨115 / 2, Geometry.lineString [(0, 0)]⟩]

/-- A two-vertex segment starting at the origin. -/
def exGeom1 : Geometry := Geometry.lineString [(0, 0), (1, 0)]

def exEdge1 : Edge Unit := ⟨some exGeom1, ()⟩

def exEdgeNone : Edge Unit := ⟨none, ()⟩

/-- The scored row `score_streets` produces for `exEdge1` on `exNoise`
and empty point clouds. -/
def exScored1 : ScoredEdge Unit := ⟨some exGeom1, (), 1 / 2, 0, 1, 0⟩

/-- The scored row `score_streets` produces for `exEdgeNone`. -/
def exScoredNone : ScoredEdge Unit := ⟨none, (), 1 / 2, 0, 1, 0⟩

/-- Junk defaults for `getD`, never actually selected. -/
def exD : ScoredEdge Unit := ⟨none, (), 7, 7, 7, 7⟩

def exDE : Edge Unit := ⟨none, ()⟩

/-! ## The claims -/

/-- C1: in the collection returned by a successful `score_streets` run,
each of the four output scores of every segment lies in `[0, 1]`, for
every well-typed input (any geometries, point clouds and decibel
values, including decibels outside the 37.5-77.5 range). -/
theorem C1_all_scores_in_unit_interval {α : Type} (centroid : Geometry → Pt)
    (edges : List (Edge α)) (noise_gdf : List NoiseRow) (tp cp pp : List Pt)
    (out : List (ScoredEdge α))
    (h : score_streets centroid edges noise_gdf tp cp pp = Except.ok out) :
    ∀ s ∈ out,
      (0 ≤ s.noise_score ∧ s.noise_score ≤ 1) ∧ (0 ≤ s.green_score ∧ s.green_score ≤ 1) ∧
      (0 ≤ s.clean_score ∧ s.clean_score ≤ 1) ∧
      (0 ≤ s.cultural_score ∧ s.cultural_score ≤ 1) := by
  obtain ⟨hn, he, rfl⟩ := score_streets_ok_inv h
  unfold scoredOutput
  refine assembleScored_bounds _ _ _ _ _ ?_ ?_ ?_ ?_
  · intro x hx
    rcases List.mem_map.1 hx with ⟨row, hrow, rfl⟩
    unfold runRaws scoreRaws at hrow
    rcases List.mem_map.1 hrow with ⟨e, _, rfl⟩
    exact scoreEdgeRaw_noise_bounds _ _ _ _ _ _ _ _ _ _
  · exact pcnValues_mem_bounds _
  · exact cleanNormalize_mem_bounds _
  · exact pcnValues_mem_bounds _

/-- Witness for C1 at a concrete full run (single segment with missing
geometry, one noise row, empty point clouds). -/
theorem C1_witness :
    (0 ≤ exScoredNone.noise_score ∧ exScoredNone.noise_score ≤ 1) ∧
    (0 ≤ exScoredNone.green_score ∧ exScoredNone.green_score ≤ 1) ∧
    (0 ≤ exScoredNone.clean_score ∧ exScoredNone.clean_score ≤ 1) ∧
    (0 ≤ exScoredNone.cultural_score ∧ exScoredNone.cultural_score ≤ 1) :=
  C1_all_scores_in_unit_interval exCentroid [exEdgeNone] exNoise [] [] [] [exScoredNone]
    (by with_unfolding_all rfl) exScoredNone (by simp)

/-- C2 (counterexample): on an empty segment list (with a well-typed,
nonempty noise collection) `score_streets` raises instead of returning a
scored collection — `np.zeros(0).max()` is a `ValueError` — refuting the
claimed totality. -/
theorem C2_counterexample :
    score_streets (fun _ => ((0 : ℚ), (0 : ℚ))) ([] : List (Edge Unit))
      [⟨50, Geometry.lineString [(0, 0), (1, 0)]⟩] [] [] [] =
      Except.error
        "ValueError: zero-size array to reduction operation maximum which has no identity" := by
  with_unfolding_all rfl

/-- C2 (amended): `score_streets` raises no error and produces a scored
collection for every well-typed input in which the noise collection and
the segment list are both nonempty — including empty point clouds for
every category (their index is absent and treated as "no matches") and
segments with missing or empty geometry; on an empty noise collection
the unguarded KD-tree construction raises, and on an empty segment list
the empty-array `max()` reduction raises. -/
theorem C2_amended_totality :
    (∀ {α : Type} (centroid : Geometry → Pt) (edges : List (Edge α)) (n : List NoiseRow)
      (tp cp pp : List Pt), n ≠ [] → edges ≠ [] →
      score_streets centroid edges n tp cp pp =
        Except.ok (scoredOutput centroid edges n tp cp pp))
  ∧ (∀ {α : Type} (centroid : Geometry → Pt) (edges : List (Edge α)) (tp cp pp : List Pt),
      score_streets centroid edges ([] : List NoiseRow) tp cp pp =
        Except.error "ValueError: data must be 2 dimensions")
  ∧ (∀ {α : Type} (centroid : Geometry → Pt) (n : List NoiseRow) (tp cp pp : List Pt),
      n ≠ [] →
      score_streets centroid ([] : List (Edge α)) n tp cp pp =
        Except.error
          "ValueError: zero-size array to reduction operation maximum which has no identity") := by
  refine ⟨?_, ?_, ?_⟩
  · intro α centroid edges n tp cp pp hn he
    exact score_streets_eq_ok centroid edges n tp cp pp hn he
  · intro α centroid edges tp cp pp
    exact score_streets_noise_nil centroid edges tp cp pp
  · intro α centroid n tp cp pp hn
    exact score_streets_edges_nil centroid n tp cp pp hn

/-- Witness for the amended C2: concrete empty segment list with a
nonempty noise collection raises the empty-array reduction error. -/
theorem C2_witness :
    score_streets exCentroid ([] : List (Edge Unit)) exNoise [] [] [] =
      Except.error
        "ValueError: zero-size array to reduction operation maximum which has no identity" :=
  C2_amended_totality.2.2 exCentroid exNoise [] [] [] (by decide)

/-- C3: the raw count of `count_points_near_line` is the number of
distinct indexed points within the buffer radius of at least one vertex
of the segment; concretely, one point within radius of two different
vertices of the same segment counts once, not twice. -/
theorem C3_count_is_distinct_union :
    (∀ (g : Geometry) (t : KDTree) (pa : List Pt) (b : ℚ),
      count_points_near_line g t pa b =
        ((Finset.range t.pts.length).filter
          (fun j => ∃ c ∈ g.coordsList, sqDist (t.pts.getD j (0, 0)) c ≤ b ^ 2)).card)
  ∧ count_points_near_line (Geometry.lineString [(0, -1), (0, 1)]) ⟨[(0, 0)]⟩ [(0, 0)] 2 = 1 := by
  refine ⟨count_points_card, ?_⟩
  with_unfolding_all rfl

/-- C4: the green-score normalization (identical to the cultural-score
normalization over POI counts, both are `percentileCapNormalize`): when
every count is zero the scores are all zero; otherwise the cap is
`max(90th percentile of the nonzero counts, 1)` and each score is
`min(count / cap, 1)` — so a zero count scores exactly 0 and a count
equal to the cap scores exactly 1, never above. -/
theorem C4_green_normalization (counts : List ℕ) :
    (counts ≠ [] → (∀ c ∈ counts, c = 0) →
      percentileCapNormalize counts = Except.ok (counts.map fun _ => (0 : ℚ)))
  ∧ ((∃ c ∈ counts, 0 < c) →
      percentileCapNormalize counts =
        Except.ok (counts.map fun (c : ℕ) => min ((c : ℚ) / capOf counts) 1) ∧
      1 ≤ capOf counts)
  ∧ min ((0 : ℚ) / capOf counts) 1 = 0
  ∧ (∀ c : ℕ, (c : ℚ) = capOf counts → min ((c : ℚ) / capOf counts) 1 = 1) := by
  refine ⟨?_, ?_, ?_, ?_⟩
  · intro hne hz
    rw [pcn_eq_ok counts hne]
    unfold pcnValues
    rw [if_neg]
    rintro ⟨c, hc, hpos⟩
    rw [hz c hc] at hpos
    exact lt_irrefl 0 hpos
  · intro hex
    have hne : counts ≠ [] := by
      rcases hex with ⟨c, hc, _⟩
      intro h0
      rw [h0] at hc
      simp at hc
    refine ⟨?_, capOf_ge_one counts⟩
    rw [pcn_eq_ok counts hne]
    unfold pcnValues
    rw [if_pos hex]
  · rw [zero_div]
    exact min_eq_left zero_le_one
  · intro c hc
    rw [hc, div_self (ne_of_gt (capOf_pos counts))]
    exact min_self 1

/-- Witness for C4: counts `[0, 3]` (a positive count exists) and
`[0, 0]` (all zero). -/
theorem C4_witness :
    (percentileCapNormalize [0, 3] =
        Except.ok ([0, 3].map fun (c : ℕ) => min ((c : ℚ) / capOf [0, 3]) 1) ∧
      1 ≤ capOf [0, 3]) ∧
    percentileCapNormalize [0, 0] = Except.ok ([0, 0].map fun _ => (0 : ℚ)) :=
  ⟨(C4_green_normalization [0, 3]).2.1 ⟨3, by decide, by decide⟩,
   (C4_green_normalization [0, 0]).1 (by decide) (by decide)⟩

/-- C5: for a segment with nonempty geometry whose nearest noise
centroid lies within the `0.001`-degree threshold, the output noise score
is the 3-decimal rounding of `clamp(1 − (db − 37.5)/40, 0, 1)` applied
to the matched decibel value; a segment with no observation within the
threshold keeps the `0.5` default.  The clamp maps `37.5` (and anything
below) to `1`, `77.5` (and anything above) to `0`, and the midpoint
`57.5` to `0.5` — values outside the range clamp to the boundary rather
than extrapolating; `1`, `0` and `0.5` are fixed points of the
rounding. -/
theorem C5_noise_score {α : Type} (centroid : Geometry → Pt) (edges : List (Edge α))
    (n : List NoiseRow) (tp cp pp : List Pt) (out : List (ScoredEdge α)) (i : ℕ)
    (d : ScoredEdge α) (dE : Edge α) (g : Geometry)
    (h : score_streets centroid edges n tp cp pp = Except.ok out) (hi : i < edges.length)
    (hgeom : (edges.getD i dE).geometry = some g) (hne : g.is_empty = false) :
    ((KDTree.query ⟨n.map fun r => centroid r.geometry⟩ (centroid g)).1 < (1 / 1000 : ℚ) ^ 2 →
      (out.getD i d).noise_score =
        round3 (max 0 (min 1 (1 - ((n.map NoiseRow.noise_db).getD
          (KDTree.query ⟨n.map fun r => centroid r.geometry⟩ (centroid g)).2 0 - 75 / 2)
          / 40))))
  ∧ (¬ (KDTree.query ⟨n.map fun r => centroid r.geometry⟩ (centroid g)).1 <
        (1 / 1000 : ℚ) ^ 2 →
      (out.getD i d).noise_score = 1 / 2)
  ∧ (∀ db : ℚ, db ≤ 75 / 2 → max 0 (min 1 (1 - (db - 75 / 2) / 40)) = 1)
  ∧ (∀ db : ℚ, 155 / 2 ≤ db → max 0 (min 1 (1 - (db - 75 / 2) / 40)) = 0)
  ∧ max 0 (min 1 (1 - ((115 / 2 : ℚ) - 75 / 2) / 40)) = 1 / 2
  ∧ round3 (1 : ℚ) = 1 ∧ round3 (0 : ℚ) = 0 ∧ round3 ((1 : ℚ) / 2) = 1 / 2 := by
  obtain ⟨hn', he', rfl⟩ := score_streets_ok_inv h
  obtain ⟨hN, hG, hC, hU, hGe, hA⟩ := scoredOutput_proj centroid edges n tp cp pp i d dE hi
  have hraw := runRaws_getD centroid edges n tp cp pp i dE hi
  rw [hgeom] at hraw
  refine ⟨?_, ?_, ?_, ?_, ?_, ?_, ?_, ?_⟩
  · intro hmatch
    rw [hN, hraw, scoreEdgeRaw_noise_eq _ _ _ _ _ _ _ _ _ _ hne, if_pos hmatch]
  · intro hmatch
    rw [hN, hraw, scoreEdgeRaw_noise_eq _ _ _ _ _ _ _ _ _ _ hne, if_neg hmatch]
    with_unfolding_all rfl
  · intro db hdb
    have h1 : (1 : ℚ) ≤ 1 - (db - 75 / 2) / 40 := by linarith
    rw [min_eq_left h1]
    exact max_eq_right zero_le_one
  · intro db hdb
    have h1 : 1 - (db - 75 / 2) / 40 ≤ 0 := by linarith
    rw [min_eq_right (le_trans h1 zero_le_one)]
    exact max_eq_left h1
  · with_unfolding_all rfl
  · with_unfolding_all rfl
  · with_unfolding_all rfl
  · with_unfolding_all rfl

/-- Witness for C5: a concrete matched run at 57.5 dB (the segment's
first-vertex centroid coincides with the noise centroid, squared
distance 0). -/
theorem C5_witness :
    (([exScored1] : List (ScoredEdge Unit)).getD 0 exD).noise_score =
      round3 (max 0 (min 1 (1 - ((exNoise.map NoiseRow.noise_db).getD
        (KDTree.query ⟨exNoise.map fun r => exCentroid r.geometry⟩ (exCentroid exGeom1)).2 0
        - 75 / 2) / 40))) :=
  (C5_noise_score exCentroid [exEdge1] exNoise [] [] [] [exScored1] 0 exD exDE exGeom1
    (by with_unfolding_all rfl) (by decide) (by rfl) (by rfl)).1
    (by with_unfolding_all decide)

/-- C6: every output segment's clean score is the 3-decimal rounding of
the clean transform of its own cleaning-spot count: `1` when the count
is `0`, `max(0, 1 − count·0.3)` otherwise; counts `0`, `1` and `4` give
exactly `1`, `0.7` and `0` (the negative `1 − 1.2` is clamped to `0`),
also after rounding. -/
theorem C6_clean_score {α : Type} (centroid : Geometry → Pt) (edges : List (Edge α))
    (n : List NoiseRow) (tp cp pp : List Pt) (out : List (ScoredEdge α)) (i : ℕ)
    (d : ScoredEdge α) (dE : Edge α)
    (h : score_streets centroid edges n tp cp pp = Except.ok out) (hi : i < edges.length) :
    ((out.getD i d).clean_score =
      round3 (cleanFormula (((runRaws centroid edges n tp cp pp).getD i defaultRaw).cleaning)))
  ∧ cleanFormula 0 = 1 ∧ cleanFormula 1 = 7 / 10 ∧ cleanFormula 4 = 0
  ∧ round3 (cleanFormula 0) = 1 ∧ round3 (cleanFormula 1) = 7 / 10
  ∧ round3 (cleanFormula 4) = 0
  ∧ (∀ k : ℕ, k ≠ 0 → cleanFormula k = max 0 (1 - (k : ℚ) * (3 / 10))) := by
  obtain ⟨hn', he', rfl⟩ := score_streets_ok_inv h
  obtain ⟨hN, hG, hC, hU, hGe, hA⟩ := scoredOutput_proj centroid edges n tp cp pp i d dE hi
  refine ⟨hC, by with_unfolding_all rfl, by with_unfolding_all rfl, by with_unfolding_all rfl,
    by with_unfolding_all rfl, by with_unfolding_all rfl, by with_unfolding_all rfl, ?_⟩
  intro k hk
  rw [cleanFormula, if_neg hk]

/-- Witness for C6 at a concrete run (single missing-geometry segment,
count 0, clean score 1). -/
theorem C6_witness :
    (([exScoredNone] : List (ScoredEdge Unit)).getD 0 exD).clean_score =
      round3 (cleanFormula
        (((runRaws exCentroid [exEdgeNone] exNoise [] [] []).getD 0 defaultRaw).cleaning)) :=
  (C6_clean_score exCentroid [exEdgeNone] exNoise [] [] [] [exScoredNone] 0 exD exDE
    (by with_unfolding_all rfl) (by decide)).1

/-- C7: `parse_db_range` returns `37.5` for any (stripped) string
starting with `<`, and the arithmetic mean of the two parsed bounds
whenever the stripped, `dB(A)`-erased string splits on `-` into at least
two float-parsable parts; concretely `"70 - 75 dB(A)"` yields exactly
`72.5` and `"< 40 dB(A)"` yields exactly `37.5`. -/
theorem C7_parse_midpoint :
    (∀ s : String, pyStartsWith (pyStrip s.data) ['<'] = true →
      parse_db_range s = Except.ok (75 / 2))
  ∧ (∀ (s : String) (p0 p1 : List Char) (rest : List (List Char)) (low high : ℚ),
      pyStartsWith (pyStrip s.data) ['<'] = false →
      pySplit (pyStrip (pyReplace (pyStrip s.data) "dB(A)".data [])) ['-'] =
        p0 :: p1 :: rest →
      pyFloat (pyStrip p0) = some low → pyFloat (pyStrip p1) = some high →
      parse_db_range s = Except.ok ((low + high) / 2))
  ∧ parse_db_range "70 - 75 dB(A)" = Except.ok (145 / 2)
  ∧ parse_db_range "< 40 dB(A)" = Except.ok (75 / 2) := by
  refine ⟨?_, ?_, by with_unfolding_all rfl, by with_unfolding_all rfl⟩
  · intro s hs
    unfold parse_db_range
    rw [if_pos hs]
  · intro s p0 p1 rest low high hlt hsplit h0 h1
    unfold parse_db_range
    rw [if_neg (by simp [hlt])]
    simp only [hsplit, h0, h1]

/-- Witness for C7: the `<`-branch at `"< 45 dB(A)"` and the midpoint
branch at `"65 - 70 dB(A)"`, hypotheses discharged by evaluation. -/
theorem C7_witness :
    parse_db_range "< 45 dB(A)" = Except.ok (75 / 2) ∧
    parse_db_range "65 - 70 dB(A)" = Except.ok (((65 : ℚ) + 70) / 2) :=
  ⟨C7_parse_midpoint.1 "< 45 dB(A)" (by rfl),
   C7_parse_midpoint.2.1 "65 - 70 dB(A)" "65 ".data " 70".data [] 65 70 (by rfl) (by rfl)
     (by with_unfolding_all rfl) (by with_unfolding_all rfl)⟩

/-- C8: a segment whose geometry is missing or empty is skipped for all
matching but still present in the scored output at its position, with
its geometry and payload preserved and exactly the default scores:
noise 0.5, green 0, clean 1, cultural 0. -/
theorem C8_empty_geometry_defaults {α : Type} (centroid : Geometry → Pt)
    (edges : List (Edge α)) (n : List NoiseRow) (tp cp pp : List Pt)
    (out : List (ScoredEdge α)) (i : ℕ) (d : ScoredEdge α) (dE : Edge α)
    (h : score_streets centroid edges n tp cp pp = Except.ok out) (hi : i < edges.length)
    (hmiss : (edges.getD i dE).geometry = none ∨
      ∃ geo, (edges.getD i dE).geometry = some geo ∧ geo.is_empty = true) :
    out.length = edges.length ∧
    (out.getD i d).geometry = (edges.getD i dE).geometry ∧
    (out.getD i d).attrs = (edges.getD i dE).attrs ∧
    (out.getD i d).noise_score = 1 / 2 ∧
    (out.getD i d).green_score = 0 ∧
    (out.getD i d).clean_score = 1 ∧
    (out.getD i d).cultural_score = 0 := by
  obtain ⟨hn', he', rfl⟩ := score_streets_ok_inv h
  obtain ⟨hN, hG, hC, hU, hGe, hA⟩ := scoredOutput_proj centroid edges n tp cp pp i d dE hi
  have hraw : (runRaws centroid edges n tp cp pp).getD i defaultRaw = defaultRaw := by
    rw [runRaws_getD centroid edges n tp cp pp i dE hi]
    exact scoreEdgeRaw_default _ _ _ _ _ _ _ _ _ _ hmiss
  have hilen : i < (runRaws centroid edges n tp cp pp).length := by
    rw [runRaws_length]
    exact hi
  have htrees : ((runRaws centroid edges n tp cp pp).map RawRow.trees).getD i 0 = 0 := by
    rw [getD_map_of_lt RawRow.trees _ i 0 defaultRaw hilen, hraw]
    rfl
  have hpois : ((runRaws centroid edges n tp cp pp).map RawRow.pois).getD i 0 = 0 := by
    rw [getD_map_of_lt RawRow.pois _ i 0 defaultRaw hilen, hraw]
    rfl
  have hgreen : (pcnValues ((runRaws centroid edges n tp cp pp).map RawRow.trees)).getD i 0
      = 0 := by
    rw [pcnValues_getD _ i (by simpa using hilen), htrees]
    split_ifs
    · rw [Nat.cast_zero, zero_div]
      exact min_eq_left zero_le_one
    · rfl
  have hcult : (pcnValues ((runRaws centroid edges n tp cp pp).map RawRow.pois)).getD i 0
      = 0 := by
    rw [pcnValues_getD _ i (by simpa using hilen), hpois]
    split_ifs
    · rw [Nat.cast_zero, zero_div]
      exact min_eq_left zero_le_one
    · rfl
  refine ⟨scoredOutput_length _ _ _ _ _ _, hGe, hA, ?_, ?_, ?_, ?_⟩
  · rw [hN, hraw]
    with_unfolding_all rfl
  · rw [hG, hgreen]
    with_unfolding_all rfl
  · rw [hC, hraw]
    with_unfolding_all rfl
  · rw [hU, hcult]
    with_unfolding_all rfl

/-- Witness for C8 at a concrete run with a missing-geometry segment. -/
theorem C8_witness :
    ([exScoredNone] : List (ScoredEdge Unit)).length = [exEdgeNone].length ∧
    ([exScoredNone].getD 0 exD).geometry = ([exEdgeNone].getD 0 exDE).geometry ∧
    ([exScoredNone].getD 0 exD).attrs = ([exEdgeNone].getD 0 exDE).attrs ∧
    ([exScoredNone].getD 0 exD).noise_score = 1 / 2 ∧
    ([exScoredNone].getD 0 exD).green_score = 0 ∧
    ([exScoredNone].getD 0 exD).clean_score = 1 ∧
    ([exScoredNone].getD 0 exD).cultural_score = 0 :=
  C8_empty_geometry_defaults exCentroid [exEdgeNone] exNoise [] [] [] [exScoredNone] 0 exD exDE
    (by with_unfolding_all rfl) (by decide) (Or.inl (by rfl))

/-- C9: the scoring pass is deterministic — equal inputs (segments,
noise, the three point clouds, and the centroid primitive) give equal
outputs — and the unordered set-accumulation of nearby point indices
cannot change any count: permuting a segment's vertex list leaves
`count_points_near_line` unchanged. -/
theorem C9_deterministic :
    (∀ {α : Type} (c₁ c₂ : Geometry → Pt) (e₁ e₂ : List (Edge α)) (n₁ n₂ : List NoiseRow)
      (tp₁ tp₂ cp₁ cp₂ pp₁ pp₂ : List Pt),
      c₁ = c₂ → e₁ = e₂ → n₁ = n₂ → tp₁ = tp₂ → cp₁ = cp₂ → pp₁ = pp₂ →
      score_streets c₁ e₁ n₁ tp₁ cp₁ pp₁ = score_streets c₂ e₂ n₂ tp₂ cp₂ pp₂)
  ∧ (∀ (g₁ g₂ : Geometry) (t : KDTree) (pa : List Pt) (b : ℚ),
      g₁.coordsList.Perm g₂.coordsList →
      count_points_near_line g₁ t pa b = count_points_near_line g₂ t pa b) := by
  constructor
  · intro α c₁ c₂ e₁ e₂ n₁ n₂ tp₁ tp₂ cp₁ cp₂ pp₁ pp₂ hc he hn htp hcp hpp
    subst hc
    subst he
    subst hn
    subst htp
    subst hcp
    subst hpp
    rfl
  · intro g₁ g₂ t pa b hperm
    rw [count_points_card, count_points_card]
    congr 1
    apply Finset.filter_congr
    intro j _
    constructor
    · rintro ⟨c, hc, hd⟩
      exact ⟨c, hperm.mem_iff.1 hc, hd⟩
    · rintro ⟨c, hc, hd⟩
      exact ⟨c, hperm.mem_iff.2 hc, hd⟩

/-- Witness for C9: two identical concrete runs, and a segment with its
vertex list reversed (a permutation) giving the same count. -/
theorem C9_witness :
    score_streets exCentroid [exEdge1] exNoise [] [] [] =
      score_streets exCentroid [exEdge1] exNoise [] [] [] ∧
    count_points_near_line (Geometry.lineString [(0, -1), (0, 1)]) ⟨[(0, 0)]⟩ [] 2 =
      count_points_near_line (Geometry.lineString [(0, 1), (0, -1)]) ⟨[(0, 0)]⟩ [] 2 :=
  ⟨C9_deterministic.1 exCentroid exCentroid [exEdge1] [exEdge1] exNoise exNoise
      [] [] [] [] [] [] rfl rfl rfl rfl rfl rfl,
    C9_deterministic.2 (Geometry.lineString [(0, -1), (0, 1)])
      (Geometry.lineString [(0, 1), (0, -1)]) ⟨[(0, 0)]⟩ [] 2 (by decide)⟩

/-- C10: the scoring pass is a pure function returning a new scored
collection: every output row carries its input row's geometry and
payload unchanged (plus the four score columns), with one output row per
input row; the source builds this on a copy (`edges.copy()`) and never
writes to the noise collection or the three point clouds, modelled here
by `score_streets` consuming its arguments by value. -/
theorem C10_no_input_mutation {α : Type} (centroid : Geometry → Pt) (edges : List (Edge α))
    (n : List NoiseRow) (tp cp pp : List Pt) (out : List (ScoredEdge α))
    (h : score_streets centroid edges n tp cp pp = Except.ok out) :
    out.length = edges.length ∧
    ∀ (i : ℕ) (d : ScoredEdge α) (dE : Edge α), i < edges.length →
      (out.getD i d).geometry = (edges.getD i dE).geometry ∧
      (out.getD i d).attrs = (edges.getD i dE).attrs := by
  obtain ⟨hn', he', rfl⟩ := score_streets_ok_inv h
  refine ⟨scoredOutput_length _ _ _ _ _ _, ?_⟩
  intro i d dE hi
  obtain ⟨_, _, _, _, hGe, hA⟩ := scoredOutput_proj centroid edges n tp cp pp i d dE hi
  exact ⟨hGe, hA⟩

/-- Witness for C10 at a concrete run. -/
theorem C10_witness :
    ([exScored1] : List (ScoredEdge Unit)).length = [exEdge1].length ∧
    (([exScored1].getD 0 exD).geometry = ([exEdge1].getD 0 exDE).geometry ∧
      ([exScored1].getD 0 exD).attrs = ([exEdge1].getD 0 exDE).attrs) := by
  have h := C10_no_input_mutation exCentroid [exEdge1] exNoise [] [] [] [exScored1]
    (by with_unfolding_all rfl)
  exact ⟨h.1, h.2 0 exD exDE (by decide)⟩
